import Mathlib

/-!
Verification of the `musttag` analyzer (src/musttag.go) against its
specification.  The Go code is shallowly embedded: Go types (`go/types`)
become the inductive `Ty` (with an environment `Env` resolving named types,
since Go type graphs may be cyclic), struct fields become `Field`, and the
recursive `checkStruct` becomes the fuel-indexed `checkStructFuel` (the fuel
bounds recursion depth; `none` models a computation that has not terminated
within the given depth).  `tagAndExpr`, `structAndPos` and the reporting
loop of `run` are embedded likewise.
-/

namespace Musttag

mutual

/-- Go types, as far as the analyzer inspects them: a named type (resolved
through an environment, because Go named types may refer to themselves), a
pointer type, a struct type with its ordered field list, or any other type
(primitive, interface, map, slice, ...). -/
inductive Ty : Type where
  | named : String → Ty
  | ptr : Ty → Ty
  | strct : List Field → Ty
  | basic : Ty

inductive Field : Type where
  | mk : String → Bool → String → Ty → Field

end

/-- Field name (`types.Var.Name`). -/
def Field.fname : Field → String
  | .mk n _ _ _ => n

/-- Whether the field is exported (`types.Var.Exported`). -/
def Field.exported : Field → Bool
  | .mk _ e _ _ => e

/-- The raw struct tag string of the field (`types.Struct.Tag(i)`). -/
def Field.tag : Field → String
  | .mk _ _ t _ => t

/-- The field's type (`types.Var.Type`). -/
def Field.ty : Field → Ty
  | .mk _ _ _ t => t

/-- The table of named type declarations: name ↦ (declaration position of
`Named.Obj()`, underlying type `Named.Underlying()`).  Positions are Nat. -/
abbrev Env : Type := List (String × Nat × Ty)

/-- Look up a named type in the declaration table. -/
def lookupEnv (env : Env) (n : String) : Option (Nat × Ty) :=
  (env.find? (fun e => e.1 = n)).map (fun e => e.2)

/-- Go `types.Type.Underlying()`: a named type resolves via the table (Go
guarantees the result is never itself a named type); every other type is its
own underlying type.  `none` only for a name missing from the table, which
cannot happen for type-checked Go input. -/
def underlying (env : Env) : Ty → Option Ty
  | .named n => (lookupEnv env n).map (fun e => e.2)
  | t => some t

/-- Go `t.Underlying().(*types.Struct)`: the underlying struct's fields, if the
underlying type is a struct. -/
def structUnder (env : Env) (t : Ty) : Option (List Field) :=
  match underlying env t with
  | some (.strct fs) => some fs
  | _ => none

/-- Go `if ptr, ok := t.(*types.Pointer); ok { t = ptr.Elem() }`: unwrap exactly
one level of pointer indirection. -/
def unwrapPtr : Ty → Ty
  | .ptr t => t
  | t => t

/-- Go `if named, ok := t.(*types.Named); ok { named.Obj().Pos() }`: the
declaration position when `t` is a named type found in the table. -/
def namedDecl (env : Env) : Ty → Option Nat
  | .named n => (lookupEnv env n).map (fun e => e.1)
  | _ => none

/-- Go `strings.Split(s, " ")` on the character list of `s`: split at every
space character; the empty string yields one empty token. -/
def splitChars : List Char → List (List Char)
  | [] => [[]]
  | c :: rest =>
    if c = ' ' then [] :: splitChars rest
    else
      match splitChars rest with
      | [] => [[c]]
      | t :: ts => (c :: t) :: ts

/-- Go `strings.HasPrefix` on character lists. -/
def hasPrefixChars : List Char → List Char → Bool
  | _, [] => true
  | [], _ :: _ => false
  | c :: cs, p :: ps => c = p && hasPrefixChars cs ps

/-- The tag check of `checkStruct` (lines 128-136): split the raw tag string
on single spaces and look for a token starting with `tag + ":"`. -/
def fieldTagged (s tag : String) : Bool :=
  (splitChars s.data).any (fun tok => hasPrefixChars tok (tag.data ++ [':']))

/-- One level of `checkStruct` (lines 122-161), parametrized by the function
`recurse` used for nested structs (the recursive call, whose depth the fuel
bounds).  The in-out `pos` pointer is threaded explicitly: the result carries
the boolean `ok` and the final value of `*pos`. -/
def goFields (env : Env) (tag : String)
    (recurse : List Field → Nat → Option (Bool × Nat)) :
    List Field → Nat → Option (Bool × Nat)
  | [], pos => some (true, pos)
  | f :: fs, pos =>
    match f.exported with
    | false => goFields env tag recurse fs pos
    | true =>
      match fieldTagged f.tag tag with
      | false => some (false, pos)
      | true =>
        match structUnder env (unwrapPtr f.ty) with
        | none => goFields env tag recurse fs pos
        | some nested =>
          match recurse nested pos with
          | none => none
          | some (true, p) => goFields env tag recurse fs p
          | some (false, p) =>
            match namedDecl env (unwrapPtr f.ty) with
            | some d => some (false, d)
            | none => some (false, p)

/-- The function `checkStruct` with an explicit bound on recursion depth; `none` means the
bound was hit, so the unbounded Go recursion has not returned within that
depth.  A result `some (ok, p)` is the Go function's return value and the
final value of `*pos`. -/
def checkStructFuel (env : Env) (tag : String) : Nat → List Field → Nat → Option (Bool × Nat)
  | 0 => fun _ _ => none
  | n + 1 => goFields env tag (checkStructFuel env tag n)

/-- The shapes of argument expressions `structAndPos` distinguishes: an
identifier (carrying the declaration position of its object, `arg.Obj.Pos()`),
a composite literal (carrying its own position `arg.Pos()`), a unary
expression such as `&x`, and every other expression shape. -/
inductive Expr : Type where
  | ident : Nat → Expr
  | compositeLit : Nat → Expr
  | unary : Expr → Expr
  | other : Expr
deriving DecidableEq

/-- A call expression as the analyzer sees it: the full name of the static
callee when `typeutil.StaticCallee` resolves one, and the argument list. -/
structure CallExpr : Type where
  callee : Option String
  args : List Expr

/-- Result of `tagAndExpr`: no match, a fault (out-of-range slice index, a Go
panic), or a match carrying the tag to look for and the argument expression
holding the struct to check. -/
inductive MatchRes : Type where
  | noMatch : MatchRes
  | fault : MatchRes
  | matched : String → Expr → MatchRes
deriving DecidableEq

/-- The callee names of the rule table whose checked argument has index 0
(lines 76-79). -/
def jsonNames0 : List String :=
  ["encoding/json.Marshal", "encoding/json.MarshalIndent",
   "(*encoding/json.Encoder).Encode", "(*encoding/json.Decoder).Decode"]

/-- Go `call.Args[i]`: the element when in range, a panic otherwise. -/
def argAt (args : List Expr) (i : Nat) : MatchRes :=
  match args.get? i with
  | some e => .matched "json" e
  | none => .fault

/-- The function `tagAndExpr` (lines 65-86): switch on the static callee's full name; the
four marshal/encode entry points take the struct in argument 0, `Unmarshal`
in argument 1; any other callee (or no static callee) is no match.  The Go
code indexes `call.Args` directly, without a length check. -/
def tagAndExpr (call : CallExpr) : MatchRes :=
  match call.callee with
  | none => .noMatch
  | some fn =>
    if fn = "encoding/json.Marshal" ∨ fn = "encoding/json.MarshalIndent" ∨
        fn = "(*encoding/json.Encoder).Encode" ∨ fn = "(*encoding/json.Decoder).Decode" then
      argAt call.args 0
    else if fn = "encoding/json.Unmarshal" then argAt call.args 1
    else .noMatch

/-- The function `structAndPos` (lines 90-117): take the static type of the expression
(supplied by the caller, mirroring `pass.TypesInfo.TypeOf`), unwrap one
pointer level, then: a named type with struct underlying yields its fields
and the name's declaration position; an anonymous struct type yields its
fields with a position taken from the expression, which must be (possibly
under one unary operator) an identifier or a composite literal; anything
else is no match. -/
def structAndPos (env : Env) (t : Ty) (expr : Expr) : Option (List Field × Nat) :=
  match unwrapPtr t with
  | .named n =>
    match lookupEnv env n with
    | some (d, .strct fs) => some (fs, d)
    | _ => none
  | .strct fs =>
    match (match expr with | .unary x => x | e => e) with
    | .ident p => some (fs, p)
    | .compositeLit p => some (fs, p)
    | _ => none
  | _ => none

/-- The state of the reporting loop in `run`: the `reported` dedup set
(lines 30-34) and the diagnostics emitted so far, each a (position, tag)
pair (line 56). -/
abbrev RunState : Type := List (Nat × String) × List (Nat × String)

/-- The body of the `inspect.Preorder` closure in `run` (lines 36-58) for one
call expression: match the call, resolve the struct and position, check the
struct (with the given recursion-depth bound), and report deduplicated by
(position, tag).  `none` models a run that faults (argument index panic) or
does not terminate (checkStruct recursion exceeding every bound). -/
def processCall (env : Env) (typeOf : Expr → Ty) (fuel : Nat)
    (st : RunState) (call : CallExpr) : Option RunState :=
  match tagAndExpr call with
  | .noMatch => some st
  | .fault => none
  | .matched tag e =>
    match structAndPos env (typeOf e) e with
    | none => some st
    | some (s, pos) =>
      match checkStructFuel env tag fuel s pos with
      | none => none
      | some (true, _) => some st
      | some (false, p) =>
        if (p, tag) ∈ st.1 then some st
        else some ((p, tag) :: st.1, st.2 ++ [(p, tag)])

/-- The reporting loop of `run` over the stream of call expressions. -/
def runCalls (env : Env) (typeOf : Expr → Ty) (fuel : Nat) :
    List CallExpr → RunState → Option RunState
  | [], st => some st
  | c :: cs, st =>
    match processCall env typeOf fuel st c with
    | none => none
    | some st' => runCalls env typeOf fuel cs st'

/-- The function `run` (lines 22-61): process every call expression, starting from an
empty dedup set, and return the list of emitted diagnostics. -/
def runPass (env : Env) (typeOf : Expr → Ty) (fuel : Nat)
    (calls : List CallExpr) : Option (List (Nat × String)) :=
  (runCalls env typeOf fuel calls ([], [])).map (fun st => st.2)

/-- Modelled from the spec (§4.3, §8): a record is fully compliant for a tag
when every externally-visible field is tagged and every nested record
reachable through a tagged field (after unwrapping one indirection) is
itself fully compliant.  This is the specification-side predicate against
which `checkStructFuel` is compared. -/
inductive FieldsOk (env : Env) (tag : String) : List Field → Prop where
  | nil : FieldsOk env tag []
  | skip (f : Field) (fs : List Field) :
      f.exported = false → FieldsOk env tag fs → FieldsOk env tag (f :: fs)
  | leaf (f : Field) (fs : List Field) :
      f.exported = true → fieldTagged f.tag tag = true →
      structUnder env (unwrapPtr f.ty) = none →
      FieldsOk env tag fs → FieldsOk env tag (f :: fs)
  | nested (f : Field) (fs ns : List Field) :
      f.exported = true → fieldTagged f.tag tag = true →
      structUnder env (unwrapPtr f.ty) = some ns →
      FieldsOk env tag ns → FieldsOk env tag fs → FieldsOk env tag (f :: fs)

mutual

/-- Holds (as `true`) when no named type occurs anywhere inside the type, so that the
verifier can never pull a declaration position out of it. -/
def tyNoNamed : Ty → Bool
  | .named _ => false
  | .ptr t => tyNoNamed t
  | .strct fs => fieldsNoNamed fs
  | .basic => true

/-- Holds (as `true`) when no field of the list mentions a named type. -/
def fieldsNoNamed : List Field → Bool
  | [] => true
  | .mk _ _ _ t :: fs => tyNoNamed t && fieldsNoNamed fs

end

/-- Modelled from the spec (§4.3: the raw annotation string is "split on
whitespace into tokens"): like `splitChars` but splitting at every
whitespace character, not only at spaces. -/
def splitWsChars : List Char → List (List Char)
  | [] => [[]]
  | c :: rest =>
    if c.isWhitespace then [] :: splitWsChars rest
    else
      match splitWsChars rest with
      | [] => [[c]]
      | t :: ts => (c :: t) :: ts

/-- Modelled from the spec: the tag check with whitespace splitting, the
reading of claim C7's "splitting its raw annotation string on whitespace". -/
def fieldTaggedWs (s tag : String) : Bool :=
  (splitWsChars s.data).any (fun tok => hasPrefixChars tok (tag.data ++ [':']))

/-! ### Helper lemmas about the field loop -/

/-- Processing a concatenated field list: process the first part; only if it
succeeds does the loop continue into the second part, threading the
position. -/
lemma goFields_append (env : Env) (tag : String)
    (r : List Field → Nat → Option (Bool × Nat)) :
    ∀ (xs ys : List Field) (pos : Nat),
    goFields env tag r (xs ++ ys) pos =
      match goFields env tag r xs pos with
      | some (true, p) => goFields env tag r ys p
      | none => none
      | some (false, p) => some (false, p) := by
  intro xs
  induction xs with
  | nil => intro ys pos; simp [goFields]
  | cons f fs ih =>
    intro ys pos
    cases hx : f.exported with
    | false =>
      simp only [List.cons_append, goFields, hx]
      exact ih ys pos
    | true =>
      cases ht : fieldTagged f.tag tag with
      | false => simp only [List.cons_append, goFields, hx, ht]
      | true =>
        cases hs : structUnder env (unwrapPtr f.ty) with
        | none =>
          simp only [List.cons_append, goFields, hx, ht, hs]
          exact ih ys pos
        | some nested =>
          simp only [List.cons_append, goFields, hx, ht, hs]
          cases hr : r nested pos with
          | none => rfl
          | some bp =>
            obtain ⟨b, p⟩ := bp
            cases b with
            | true => exact ih ys p
            | false => cases namedDecl env (unwrapPtr f.ty) <;> rfl

/-- When the recursive calls never move the position on success, neither
does one level of the loop: a `true` result leaves `*pos` untouched. -/
lemma goFields_frame (env : Env) (tag : String)
    (r : List Field → Nat → Option (Bool × Nat))
    (hr : ∀ ns pos p, r ns pos = some (true, p) → p = pos) :
    ∀ (fs : List Field) (pos p : Nat),
    goFields env tag r fs pos = some (true, p) → p = pos := by
  intro fs
  induction fs with
  | nil =>
    intro pos p h
    simp only [goFields, Option.some.injEq, Prod.mk.injEq] at h
    exact h.2.symm
  | cons f fs ih =>
    intro pos p h
    cases hx : f.exported with
    | false =>
      simp only [goFields, hx] at h
      exact ih pos p h
    | true =>
      cases ht : fieldTagged f.tag tag with
      | false =>
        simp only [goFields, hx, ht, Option.some.injEq, Prod.mk.injEq] at h
        exact absurd h.1.symm (by simp)
      | true =>
        cases hs : structUnder env (unwrapPtr f.ty) with
        | none =>
          simp only [goFields, hx, ht, hs] at h
          exact ih pos p h
        | some nested =>
          simp only [goFields, hx, ht, hs] at h
          cases hrec : r nested pos with
          | none =>
            simp only [hrec] at h
            exact Option.noConfusion h
          | some bp =>
            obtain ⟨b, q⟩ := bp
            cases b with
            | true =>
              simp only [hrec] at h
              have hq : q = pos := hr nested pos q hrec
              rw [hq] at h
              exact ih pos p h
            | false =>
              simp only [hrec] at h
              cases hnd : namedDecl env (unwrapPtr f.ty) with
              | none =>
                simp only [hnd, Option.some.injEq, Prod.mk.injEq] at h
                exact absurd h.1 (by simp)
              | some d =>
                simp only [hnd, Option.some.injEq, Prod.mk.injEq] at h
                exact absurd h.1 (by simp)

/-- A successful table lookup returns data of some entry of the table. -/
lemma lookupEnv_mem (env : Env) (n : String) (d : Nat) (u : Ty) :
    lookupEnv env n = some (d, u) → ∃ ent ∈ env, ent.2.1 = d := by
  intro h
  simp only [lookupEnv, Option.map_eq_some'] at h
  obtain ⟨ent, hfind, hent⟩ := h
  exact ⟨ent, List.mem_of_find?_eq_some hfind, by rw [hent]⟩

/-- Any declaration position produced by `namedDecl` is the position stored
for some entry of the table. -/
lemma namedDecl_mem (env : Env) (t : Ty) (d : Nat) :
    namedDecl env t = some d → ∃ ent ∈ env, ent.2.1 = d := by
  cases t with
  | named n =>
    intro h
    simp only [namedDecl, Option.map_eq_some'] at h
    obtain ⟨⟨d', u⟩, hlk, hd⟩ := h
    exact hd ▸ lookupEnv_mem env n d' u hlk
  | ptr t => intro h; exact Option.noConfusion h
  | strct fs => intro h; exact Option.noConfusion h
  | basic => intro h; exact Option.noConfusion h

/-- One level of the loop moves the position only to a declaration position
recorded in the type table, provided the recursive calls do likewise. -/
lemma goFields_write (env : Env) (tag : String)
    (r : List Field → Nat → Option (Bool × Nat))
    (hr : ∀ ns pos b p, r ns pos = some (b, p) → p = pos ∨ ∃ ent ∈ env, ent.2.1 = p) :
    ∀ (fs : List Field) (pos : Nat) (b : Bool) (p : Nat),
    goFields env tag r fs pos = some (b, p) → p = pos ∨ ∃ ent ∈ env, ent.2.1 = p := by
  intro fs
  induction fs with
  | nil =>
    intro pos b p h
    simp only [goFields, Option.some.injEq, Prod.mk.injEq] at h
    exact Or.inl h.2.symm
  | cons f fs ih =>
    intro pos b p h
    cases hx : f.exported with
    | false =>
      simp only [goFields, hx] at h
      exact ih pos b p h
    | true =>
      cases ht : fieldTagged f.tag tag with
      | false =>
        simp only [goFields, hx, ht, Option.some.injEq, Prod.mk.injEq] at h
        exact Or.inl h.2.symm
      | true =>
        cases hs : structUnder env (unwrapPtr f.ty) with
        | none =>
          simp only [goFields, hx, ht, hs] at h
          exact ih pos b p h
        | some nested =>
          simp only [goFields, hx, ht, hs] at h
          cases hrec : r nested pos with
          | none =>
            simp only [hrec] at h
            exact Option.noConfusion h
          | some bq =>
            obtain ⟨b', q⟩ := bq
            cases b' with
            | true =>
              simp only [hrec] at h
              rcases ih q b p h with hpq | hmem
              · exact hpq ▸ hr nested pos true q hrec
              · exact Or.inr hmem
            | false =>
              simp only [hrec] at h
              cases hnd : namedDecl env (unwrapPtr f.ty) with
              | none =>
                simp only [hnd, Option.some.injEq, Prod.mk.injEq] at h
                rcases hr nested pos false q hrec with hq | hmem
                · exact Or.inl (h.2 ▸ hq)
                · exact Or.inr (h.2 ▸ hmem)
              | some d =>
                simp only [hnd, Option.some.injEq, Prod.mk.injEq] at h
                exact Or.inr (h.2 ▸ namedDecl_mem env (unwrapPtr f.ty) d hnd)

/-- The function `checkStruct` moves the position only to a declaration position recorded
in the type table. -/
lemma checkStructFuel_write (env : Env) (tag : String) :
    ∀ (fuel : Nat) (fs : List Field) (pos : Nat) (b : Bool) (p : Nat),
    checkStructFuel env tag fuel fs pos = some (b, p) →
    p = pos ∨ ∃ ent ∈ env, ent.2.1 = p := by
  intro fuel
  induction fuel with
  | zero => intro fs pos b p h; exact Option.noConfusion h
  | succ n ih => exact goFields_write env tag _ (fun ns pos b p h => ih ns pos b p h)

/-- The function `checkStruct` leaves the in-out position unchanged whenever it returns
`true`, at every recursion depth. -/
lemma checkStructFuel_frame (env : Env) (tag : String) :
    ∀ (fuel : Nat) (fs : List Field) (pos p : Nat),
    checkStructFuel env tag fuel fs pos = some (true, p) → p = pos := by
  intro fuel
  induction fuel with
  | zero => intro fs pos p h; cases h
  | succ n ih => exact goFields_frame env tag _ (fun ns pos p h => ih ns pos p h)

/-- A cons step of `fieldsNoNamed`, stated for an unstructured field. -/
lemma fieldsNoNamed_cons (f : Field) (fs : List Field) :
    fieldsNoNamed (f :: fs) = (tyNoNamed f.ty && fieldsNoNamed fs) := by
  cases f
  rfl

/-- Unwrapping one pointer level cannot introduce a named type. -/
lemma tyNoNamed_unwrapPtr (t : Ty) :
    tyNoNamed t = true → tyNoNamed (unwrapPtr t) = true := by
  cases t <;> simp [unwrapPtr, tyNoNamed]

/-- On a type free of named types, `namedDecl` never fires. -/
lemma namedDecl_noNamed (env : Env) (t : Ty) :
    tyNoNamed t = true → namedDecl env t = none := by
  cases t <;> simp [namedDecl, tyNoNamed]

/-- A struct extracted from a type free of named types has fields free of
named types. -/
lemma structUnder_noNamed (env : Env) (t : Ty) (fs : List Field) :
    tyNoNamed t = true → structUnder env t = some fs → fieldsNoNamed fs = true := by
  cases t with
  | named n => intro h; exact absurd h (by simp [tyNoNamed])
  | ptr t => intro _ h; exact absurd h (by simp [structUnder, underlying])
  | strct gs =>
    intro h1 h2
    simp only [structUnder, underlying, Option.some.injEq] at h2
    cases h2
    exact h1
  | basic => intro _ h; exact absurd h (by simp [structUnder, underlying])

/-- On fields free of named types, one level of the loop never moves the
position, provided the recursive calls do likewise. -/
lemma goFields_noNamed (env : Env) (tag : String)
    (r : List Field → Nat → Option (Bool × Nat))
    (hr : ∀ ns pos b p, fieldsNoNamed ns = true → r ns pos = some (b, p) → p = pos) :
    ∀ (fs : List Field) (pos : Nat) (b : Bool) (p : Nat),
    fieldsNoNamed fs = true → goFields env tag r fs pos = some (b, p) → p = pos := by
  intro fs
  induction fs with
  | nil =>
    intro pos b p _ h
    simp only [goFields, Option.some.injEq, Prod.mk.injEq] at h
    exact h.2.symm
  | cons f fs ih =>
    intro pos b p hn h
    rw [fieldsNoNamed_cons, Bool.and_eq_true] at hn
    cases hx : f.exported with
    | false =>
      simp only [goFields, hx] at h
      exact ih pos b p hn.2 h
    | true =>
      cases ht : fieldTagged f.tag tag with
      | false =>
        simp only [goFields, hx, ht, Option.some.injEq, Prod.mk.injEq] at h
        exact h.2.symm
      | true =>
        cases hs : structUnder env (unwrapPtr f.ty) with
        | none =>
          simp only [goFields, hx, ht, hs] at h
          exact ih pos b p hn.2 h
        | some nested =>
          have hnn : fieldsNoNamed nested = true :=
            structUnder_noNamed env (unwrapPtr f.ty) nested
              (tyNoNamed_unwrapPtr f.ty hn.1) hs
          simp only [goFields, hx, ht, hs] at h
          cases hrec : r nested pos with
          | none =>
            simp only [hrec] at h
            exact Option.noConfusion h
          | some bq =>
            obtain ⟨b', q⟩ := bq
            have hq : q = pos := hr nested pos b' q hnn hrec
            cases b' with
            | true =>
              simp only [hrec] at h
              exact (ih q b p hn.2 h).trans hq
            | false =>
              simp only [hrec,
                namedDecl_noNamed env (unwrapPtr f.ty) (tyNoNamed_unwrapPtr f.ty hn.1),
                Option.some.injEq, Prod.mk.injEq] at h
              exact h.2 ▸ hq

/-- On fields free of named types, `checkStruct` never moves the position. -/
lemma checkStructFuel_noNamed (env : Env) (tag : String) :
    ∀ (fuel : Nat) (fs : List Field) (pos : Nat) (b : Bool) (p : Nat),
    fieldsNoNamed fs = true → checkStructFuel env tag fuel fs pos = some (b, p) → p = pos := by
  intro fuel
  induction fuel with
  | zero => intro fs pos b p _ h; exact Option.noConfusion h
  | succ n ih =>
    intro fs pos b p hn h
    exact goFields_noNamed env tag _ (fun ns pos b p hnn hh => ih ns pos b p hnn hh)
      fs pos b p hn h

/-- Soundness of one loop level against the specification predicate: a
`true` result means the field list is fully compliant, provided `true`
results of the recursive calls do. -/
lemma goFields_sound (env : Env) (tag : String)
    (r : List Field → Nat → Option (Bool × Nat))
    (hr : ∀ ns pos p, r ns pos = some (true, p) → FieldsOk env tag ns) :
    ∀ (fs : List Field) (pos p : Nat),
    goFields env tag r fs pos = some (true, p) → FieldsOk env tag fs := by
  intro fs
  induction fs with
  | nil => intro pos p _; exact FieldsOk.nil
  | cons f fs ih =>
    intro pos p h
    cases hx : f.exported with
    | false =>
      simp only [goFields, hx] at h
      exact FieldsOk.skip f fs hx (ih pos p h)
    | true =>
      cases ht : fieldTagged f.tag tag with
      | false =>
        simp only [goFields, hx, ht, Option.some.injEq, Prod.mk.injEq] at h
        exact absurd h.1 (by simp)
      | true =>
        cases hs : structUnder env (unwrapPtr f.ty) with
        | none =>
          simp only [goFields, hx, ht, hs] at h
          exact FieldsOk.leaf f fs hx ht hs (ih pos p h)
        | some nested =>
          simp only [goFields, hx, ht, hs] at h
          cases hrec : r nested pos with
          | none =>
            simp only [hrec] at h
            exact Option.noConfusion h
          | some bq =>
            obtain ⟨b', q⟩ := bq
            cases b' with
            | true =>
              simp only [hrec] at h
              exact FieldsOk.nested f fs nested hx ht hs (hr nested pos q hrec) (ih q p h)
            | false =>
              simp only [hrec] at h
              cases hnd : namedDecl env (unwrapPtr f.ty) with
              | none =>
                simp only [hnd, Option.some.injEq, Prod.mk.injEq] at h
                exact absurd h.1 (by simp)
              | some d =>
                simp only [hnd, Option.some.injEq, Prod.mk.injEq] at h
                exact absurd h.1 (by simp)

/-- Soundness of `checkStruct`: a `true` result means the field list is
fully compliant in the sense of the specification predicate. -/
lemma checkStructFuel_sound (env : Env) (tag : String) :
    ∀ (fuel : Nat) (fs : List Field) (pos p : Nat),
    checkStructFuel env tag fuel fs pos = some (true, p) → FieldsOk env tag fs := by
  intro fuel
  induction fuel with
  | zero => intro fs pos p h; exact Option.noConfusion h
  | succ n ih => exact goFields_sound env tag _ (fun ns pos p h => ih ns pos p h)

/-- Completeness of `checkStruct` against the specification predicate: on a
fully compliant field list, any terminating result is `true`. -/
lemma FieldsOk_check_true (env : Env) (tag : String) {fs : List Field}
    (hok : FieldsOk env tag fs) :
    ∀ (fuel : Nat) (pos : Nat) (b : Bool) (p : Nat),
    checkStructFuel env tag fuel fs pos = some (b, p) → b = true := by
  induction hok with
  | nil =>
    intro fuel pos b p h
    cases fuel with
    | zero => exact Option.noConfusion h
    | succ n =>
      simp only [checkStructFuel, goFields, Option.some.injEq, Prod.mk.injEq] at h
      exact h.1.symm
  | skip f fs hx _ ih =>
    intro fuel pos b p h
    cases fuel with
    | zero => exact Option.noConfusion h
    | succ n =>
      simp only [checkStructFuel, goFields, hx] at h
      exact ih (n + 1) pos b p (by simpa [checkStructFuel] using h)
  | leaf f fs hx ht hs _ ih =>
    intro fuel pos b p h
    cases fuel with
    | zero => exact Option.noConfusion h
    | succ n =>
      simp only [checkStructFuel, goFields, hx, ht, hs] at h
      exact ih (n + 1) pos b p (by simpa [checkStructFuel] using h)
  | nested f fs ns hx ht hs _ _ ihns ihfs =>
    intro fuel pos b p h
    cases fuel with
    | zero => exact Option.noConfusion h
    | succ n =>
      simp only [checkStructFuel, goFields, hx, ht, hs] at h
      cases hrec : checkStructFuel env tag n ns pos with
      | none =>
        simp only [hrec] at h
        exact Option.noConfusion h
      | some bq =>
        obtain ⟨b', q⟩ := bq
        cases b' with
        | true =>
          simp only [hrec] at h
          exact ihfs (n + 1) q b p (by simpa [checkStructFuel] using h)
        | false => exact absurd (ihns n pos false q hrec) (by simp)

/-- One level of the loop only looks at exported fields: restricting the
list to its exported fields leaves the computation unchanged. -/
lemma goFields_filter (env : Env) (tag : String)
    (r : List Field → Nat → Option (Bool × Nat)) :
    ∀ (fs : List Field) (pos : Nat),
    goFields env tag r fs pos =
      goFields env tag r (fs.filter (fun f => f.exported)) pos := by
  intro fs
  induction fs with
  | nil => intro pos; rfl
  | cons f fs ih =>
    intro pos
    cases hx : f.exported with
    | false =>
      rw [List.filter_cons_of_neg (by simp [hx])]
      simp only [goFields, hx]
      exact ih pos
    | true =>
      rw [List.filter_cons_of_pos (by simp [hx])]
      cases ht : fieldTagged f.tag tag with
      | false => simp only [goFields, hx, ht]
      | true =>
        cases hs : structUnder env (unwrapPtr f.ty) with
        | none =>
          simp only [goFields, hx, ht, hs]
          exact ih pos
        | some nested =>
          simp only [goFields, hx, ht, hs]
          cases hrec : r nested pos with
          | none => simp only [hrec]
          | some bq =>
            obtain ⟨b', q⟩ := bq
            cases b' with
            | true =>
              simp only [hrec]
              exact ih q
            | false => simp only [hrec]

/-- A duplicate-free list holds each element at most once: the count of the
matching entries is bounded by one. -/
lemma countP_nodup_le_one {α : Type _} [DecidableEq α] :
    ∀ (l : List α), l.Nodup → ∀ (a : α), l.countP (fun d => d = a) ≤ 1 := by
  intro l
  induction l with
  | nil => intro _ a; simp
  | cons b l ih =>
    intro h a
    obtain ⟨hb, hl⟩ := List.nodup_cons.mp h
    rw [List.countP_cons]
    by_cases hba : b = a
    · subst hba
      have hz : l.countP (fun d => decide (d = b)) = 0 := by
        rw [List.countP_eq_zero]
        intro x hx
        simp only [decide_eq_true_eq]
        intro hxb
        exact hb (hxb ▸ hx)
      simp [hz]
    · simp only [hba, decide_False, if_false]
      simpa using ih hl a

/-- A hit of the known-callee table reads the argument at index 0. -/
lemma tagAndExpr_mem0 (fn : String) (args : List Expr) (h : fn ∈ jsonNames0) :
    tagAndExpr ⟨some fn, args⟩ = argAt args 0 := by
  fin_cases h <;> rfl

/-- Invariant of the reporting loop: every emitted diagnostic is recorded in
the dedup set, and the emitted list stays duplicate-free. -/
lemma runCalls_inv (env : Env) (typeOf : Expr → Ty) (fuel : Nat) :
    ∀ (cs : List CallExpr) (st st' : RunState),
    runCalls env typeOf fuel cs st = some st' →
    (∀ d ∈ st.2, d ∈ st.1) → st.2.Nodup →
    (∀ d ∈ st'.2, d ∈ st'.1) ∧ st'.2.Nodup := by
  intro cs
  induction cs with
  | nil =>
    intro st st' h h1 h2
    cases Option.some.inj h
    exact ⟨h1, h2⟩
  | cons c cs ih =>
    intro st st' h h1 h2
    simp only [runCalls] at h
    cases hp : processCall env typeOf fuel st c with
    | none => rw [hp] at h; exact Option.noConfusion h
    | some st1 =>
      rw [hp] at h
      have hinv : (∀ d ∈ st1.2, d ∈ st1.1) ∧ st1.2.Nodup := by
        simp only [processCall] at hp
        cases hm : tagAndExpr c with
        | noMatch =>
          simp only [hm] at hp
          cases Option.some.inj hp
          exact ⟨h1, h2⟩
        | fault =>
          simp only [hm] at hp
          exact Option.noConfusion hp
        | matched tg e =>
          simp only [hm] at hp
          cases hsp : structAndPos env (typeOf e) e with
          | none =>
            simp only [hsp] at hp
            cases Option.some.inj hp
            exact ⟨h1, h2⟩
          | some spos =>
            obtain ⟨s, pos⟩ := spos
            simp only [hsp] at hp
            cases hc : checkStructFuel env tg fuel s pos with
            | none =>
              simp only [hc] at hp
              exact Option.noConfusion hp
            | some bq =>
              obtain ⟨b', q⟩ := bq
              cases b' with
              | true =>
                simp only [hc] at hp
                cases Option.some.inj hp
                exact ⟨h1, h2⟩
              | false =>
                simp only [hc] at hp
                by_cases hmem : (q, tg) ∈ st.1
                · rw [if_pos hmem] at hp
                  cases Option.some.inj hp
                  exact ⟨h1, h2⟩
                · rw [if_neg hmem] at hp
                  cases Option.some.inj hp
                  refine ⟨?_, ?_⟩
                  · intro d hd
                    rcases List.mem_append.mp hd with hd | hd
                    · exact List.mem_cons_of_mem _ (h1 d hd)
                    · simp only [List.mem_singleton] at hd
                      exact hd ▸ List.mem_cons_self _ _
                  · have hnotin : (q, tg) ∉ st.2 := fun hin => hmem (h1 _ hin)
                    simp [List.nodup_append, h2, hnotin, List.disjoint_left]
      exact ih st1 st' h hinv.1 hinv.2

/-! ### Concrete type graphs used as inputs -/

/-- The fields of the self-referential record `type T struct { Self *T
`json:"self"` }`: one exported, tagged field whose type is a pointer back to
`T`. -/
def fieldsSelf : List Field :=
  [Field.mk "Self" true "json:\"self\"" (Ty.ptr (Ty.named "T"))]

/-- The declaration table with the single self-referential record `T`,
declared at position 5. -/
def envSelf : Env := [("T", 5, Ty.strct fieldsSelf)]

/-- Record `type C struct { X int }`: one exported field with no tag at all. -/
def sC : List Field := [Field.mk "X" true "" Ty.basic]

/-- Record `type B struct { C C `json:"c"` }`: a tagged field of named type `C`. -/
def sB : List Field := [Field.mk "C" true "json:\"c\"" (Ty.named "C")]

/-- Record `type A struct { B B `json:"b"` }`: a tagged field of named type `B`. -/
def sA : List Field := [Field.mk "B" true "json:\"b\"" (Ty.named "B")]

/-- Three-level nesting `A` → `B` → `C`, declared at positions 10, 20, 30;
only `C`, the deepest record, is non-compliant. -/
def env4 : Env := [("A", 10, Ty.strct sA), ("B", 20, Ty.strct sB), ("C", 30, Ty.strct sC)]

/-- Anonymous `struct { G C `json:"g"` }`: an anonymous struct type with a tagged
field of named type `C`. -/
def innerAnon : List Field := [Field.mk "G" true "json:\"g\"" (Ty.named "C")]

/-- Record `type A struct { F struct{ G C `json:"g"` } `json:"f"` }`: the outer
record's only nested record is anonymous. -/
def fsAnonOuter : List Field := [Field.mk "F" true "json:\"f\"" (Ty.strct innerAnon)]

/-- Table for the anonymous-wrapping-named scenario: `A` at 10, the
non-compliant `C` at 30. -/
def envAnon : Env :=
  [("A", 10, Ty.strct fsAnonOuter), ("C", 30, Ty.strct [Field.mk "X" true "" Ty.basic])]

/-- A declaration table with one non-compliant record `T` declared at
position 40. -/
def envDup : Env := [("T", 40, Ty.strct [Field.mk "Name" true "" Ty.basic])]

/-- A `json.Marshal(x)` call site whose argument is the identifier `x`. -/
def callMarshal : CallExpr := ⟨some "encoding/json.Marshal", [Expr.ident 7]⟩

/-! ### The claims -/

/-- C1: the claim states that on a record type self-referential through one
indirection the verifier terminates, treating re-entry as compliant.  The
code has no cycle guard: on `type T struct { Self *T `json:"self"` }` (all
fields tagged, so the claim demands a `true` result) `checkStruct` re-enters
`T` unboundedly — no recursion-depth bound whatsoever suffices for the
embedded computation to return, so the Go original never returns (it crashes
by exhausting the stack). -/
theorem checkStruct_self_referential_diverges :
    ∀ (fuel pos : Nat), checkStructFuel envSelf "json" fuel fieldsSelf pos = none := by
  intro fuel
  induction fuel with
  | zero => intro pos; rfl
  | succ n ih =>
    intro pos
    have hstep : checkStructFuel envSelf "json" (n + 1) fieldsSelf pos =
        match checkStructFuel envSelf "json" n fieldsSelf pos with
        | none => none
        | some (true, p) => some (true, p)
        | some (false, _) => some (false, 5) := rfl
    rw [hstep, ih pos]

/-- C2: whenever the verifier terminates, it returns `true` exactly when
every externally-visible field is tagged with the key and every nested
record reachable through a tagged field (after unwrapping one indirection)
is itself fully compliant (the specification predicate `FieldsOk`). -/
theorem checkStruct_true_iff_compliant (env : Env) (tag : String) (fuel : Nat)
    (fs : List Field) (pos : Nat) (b : Bool) (p : Nat)
    (h : checkStructFuel env tag fuel fs pos = some (b, p)) :
    b = true ↔ FieldsOk env tag fs :=
  ⟨fun hb => checkStructFuel_sound env tag fuel fs pos p (hb ▸ h),
   fun hok => FieldsOk_check_true env tag hok fuel pos b p h⟩

/-- C2 witness: on the record with the single tagged field `Name`, the
verifier returns `true` (by evaluation), hence the record is compliant. -/
theorem checkStruct_true_iff_compliant_witness :
    FieldsOk [] "json" [Field.mk "Name" true "json:\"name\"" Ty.basic] :=
  (checkStruct_true_iff_compliant [] "json" 1
    [Field.mk "Name" true "json:\"name\"" Ty.basic] 0 true 0 rfl).mp rfl

/-- C3: in one run, each (position, tag) pair is emitted at most once: the
emitted diagnostic list of a completed run counts every pair at most one
time, however many call sites named the same non-compliant record. -/
theorem run_reports_at_most_once (env : Env) (typeOf : Expr → Ty) (fuel : Nat)
    (calls : List CallExpr) (ds : List (Nat × String))
    (h : runPass env typeOf fuel calls = some ds) :
    ∀ (p : Nat) (t : String), ds.countP (fun d => d = (p, t)) ≤ 1 := by
  intro p t
  simp only [runPass, Option.map_eq_some'] at h
  obtain ⟨st', hrun, hds⟩ := h
  have hinv := runCalls_inv env typeOf fuel calls ([], []) st' hrun (by simp) (by simp)
  have hnodup : ds.Nodup := hds ▸ hinv.2
  exact countP_nodup_le_one ds hnodup (p, t)

/-- C3 witness: two identical `json.Marshal` calls on the same non-compliant
record produce the single diagnostic list `[(40, "json")]` (by evaluation of
the run), and the theorem bounds its count. -/
theorem run_reports_at_most_once_witness :
    ([((40 : Nat), "json")]).countP (fun d => d = ((40 : Nat), "json")) ≤ 1 :=
  run_reports_at_most_once envDup (fun _ => Ty.named "T") 5 [callMarshal, callMarshal]
    [(40, "json")] rfl 40 "json"

/-- C4 counterexample: in the three-level nesting `A` → `B` → `C` of `env4`
the deepest (and only) non-compliant named record is `C`, declared at 30;
the claim therefore demands final position 30.  The code instead overwrites
the position at every unwinding level whose field type is named, so the last
write is the outermost one: verification of `A` ends with position 20, the
declaration of `B`. -/
theorem checkStruct_nested_pos_not_deepest :
    checkStructFuel env4 "json" 5 sA 10 = some (false, 20) ∧
    checkStructFuel env4 "json" 5 sA 10 ≠ some (false, 30) := by decide

/-- C4 amended: when a tagged field's type is the named record `n` (declared
at `d`) and the nested verification of its fields fails — with whatever
position `q` that deeper failure produced — the enclosing level overwrites
the position with `d` and fails: the final position is the declaration of
the outermost non-compliant named record on the failure path, not the
deepest one. -/
theorem checkStruct_outer_named_overwrites (env : Env) (tag : String) (fuel : Nat)
    (f : Field) (fs ns : List Field) (pos : Nat) (n : String) (d q : Nat)
    (hx : f.exported = true) (ht : fieldTagged f.tag tag = true)
    (hty : unwrapPtr f.ty = Ty.named n)
    (hlk : lookupEnv env n = some (d, Ty.strct ns))
    (hnest : checkStructFuel env tag fuel ns pos = some (false, q)) :
    checkStructFuel env tag (fuel + 1) (f :: fs) pos = some (false, d) := by
  have hs : structUnder env (unwrapPtr f.ty) = some ns := by
    rw [hty]; simp [structUnder, underlying, hlk]
  have hd : namedDecl env (unwrapPtr f.ty) = some d := by
    rw [hty]; simp [namedDecl, hlk]
  show goFields env tag (checkStructFuel env tag fuel) (f :: fs) pos = some (false, d)
  simp only [goFields, hx, ht, hs, hnest, hd]

/-- C4 amended witness: at the outer record `A` of `env4`, the nested check
of `B`'s fields fails with position 30 (`C`'s declaration, by evaluation),
yet the result of the enclosing level is position 20, `B`'s declaration. -/
theorem checkStruct_outer_named_overwrites_witness :
    checkStructFuel env4 "json" 5 sA 10 = some (false, 20) :=
  checkStruct_outer_named_overwrites env4 "json" 4
    (Field.mk "B" true "json:\"b\"" (Ty.named "B")) [] sB 10 "B" 20 30
    rfl rfl rfl rfl rfl

/-- C5: verification short-circuits on the first externally-visible untagged
field: if the fields before it verify to `true` leaving the position
unchanged, then appending the untagged exported field `f` makes the whole
record verify to `false` with the position unchanged, whatever fields follow
`f` — no later field is descended into and none can move the position. -/
theorem checkStruct_short_circuits_first_untagged (env : Env) (tag : String)
    (fuel : Nat) (pre : List Field) (f : Field) (post : List Field) (pos : Nat)
    (hx : f.exported = true) (ht : fieldTagged f.tag tag = false)
    (hpre : checkStructFuel env tag (fuel + 1) pre pos = some (true, pos)) :
    checkStructFuel env tag (fuel + 1) (pre ++ f :: post) pos = some (false, pos) := by
  show goFields env tag (checkStructFuel env tag fuel) (pre ++ f :: post) pos =
    some (false, pos)
  rw [goFields_append]
  have hpre2 : goFields env tag (checkStructFuel env tag fuel) pre pos =
      some (true, pos) := hpre
  rw [hpre2]
  simp only [goFields, hx, ht]

/-- C5 witness: a tagged field, then an untagged exported field, then a
further exported field whose type would not even resolve: the record fails
at the untagged field with the entry position 0. -/
theorem checkStruct_short_circuits_first_untagged_witness :
    checkStructFuel [] "json" 1
      ([Field.mk "A" true "json:\"a\"" Ty.basic] ++
        Field.mk "B" true "" Ty.basic ::
          [Field.mk "Z" true "json:\"z\"" (Ty.named "Boom")]) 0 = some (false, 0) :=
  checkStruct_short_circuits_first_untagged [] "json" 0
    [Field.mk "A" true "json:\"a\"" Ty.basic] (Field.mk "B" true "" Ty.basic)
    [Field.mk "Z" true "json:\"z\"" (Ty.named "Boom")] 0 rfl rfl rfl

/-- C6: non-externally-visible fields never affect verification: two field
lists with the same exported fields (in the same order) give the same
result and the same final position, whatever their unexported fields. -/
theorem checkStruct_ignores_unexported (env : Env) (tag : String) (fuel : Nat)
    (s1 s2 : List Field) (pos : Nat)
    (h : s1.filter (fun f => f.exported) = s2.filter (fun f => f.exported)) :
    checkStructFuel env tag fuel s1 pos = checkStructFuel env tag fuel s2 pos := by
  cases fuel with
  | zero => rfl
  | succ n =>
    show goFields env tag (checkStructFuel env tag n) s1 pos =
      goFields env tag (checkStructFuel env tag n) s2 pos
    rw [goFields_filter env tag (checkStructFuel env tag n) s1 pos, h,
      ← goFields_filter]

/-- C6 witness: a record with an untagged unexported field before its tagged
exported field verifies exactly like the record with the unexported field
replaced by a differently-typed, differently-tagged one after it. -/
theorem checkStruct_ignores_unexported_witness :
    checkStructFuel [] "json" 2
      [Field.mk "a" false "" Ty.basic, Field.mk "Name" true "json:\"n\"" Ty.basic] 0 =
    checkStructFuel [] "json" 2
      [Field.mk "Name" true "json:\"n\"" Ty.basic,
        Field.mk "b" false "zzz" (Ty.named "Q")] 0 :=
  checkStruct_ignores_unexported [] "json" 2
    [Field.mk "a" false "" Ty.basic, Field.mk "Name" true "json:\"n\"" Ty.basic]
    [Field.mk "Name" true "json:\"n\"" Ty.basic,
      Field.mk "b" false "zzz" (Ty.named "Q")] 0 rfl

/-- C7 counterexample: the claim reads the tokenization as splitting on
whitespace; the code splits on the single space character.  On the raw tag
string consisting of a tab followed by `json:"a"`, splitting on whitespace
yields the token `json:"a"` (tagged, per the claim), but the code's
space-splitting yields one token starting with the tab, so the field counts
as untagged. -/
theorem fieldTagged_space_not_whitespace :
    fieldTagged "\tjson:\"a\"" "json" = false ∧
    fieldTaggedWs "\tjson:\"a\"" "json" = true := by decide

/-- C7 amended: a field counts as tagged for the key exactly when splitting
its raw annotation string on the single space character yields a token whose
prefix is the key followed by a colon; and an exported field that is not
tagged in this sense makes the record verify to `false` immediately. -/
theorem fieldTagged_iff_space_token (env : Env) (tag : String) (fuel : Nat)
    (f : Field) (fs : List Field) (pos : Nat) (s : String) :
    (fieldTagged s tag = true ↔
      ∃ tok ∈ splitChars s.data, hasPrefixChars tok (tag.data ++ [':']) = true) ∧
    (f.exported = true → fieldTagged f.tag tag = false →
      checkStructFuel env tag (fuel + 1) (f :: fs) pos = some (false, pos)) := by
  constructor
  · simp [fieldTagged, List.any_eq_true]
  · intro hx ht
    show goFields env tag (checkStructFuel env tag fuel) (f :: fs) pos =
      some (false, pos)
    simp only [goFields, hx, ht]

/-- C7 amended witness: a record whose exported field has the empty tag
string fails immediately with the position unchanged. -/
theorem fieldTagged_iff_space_token_witness :
    checkStructFuel [] "json" 1 [Field.mk "A" true "" Ty.basic] 0 = some (false, 0) :=
  (fieldTagged_iff_space_token [] "json" 0 (Field.mk "A" true "" Ty.basic) [] 0 "").2
    rfl rfl

/-- C8 counterexample: the claim says a call with fewer arguments than the
configured index returns "no match" and never fails; a call to
`encoding/json.Unmarshal` with one argument makes the code index
`call.Args[1]` out of range — a panic, not a no-match. -/
theorem tagAndExpr_missing_arg_faults :
    tagAndExpr ⟨some "encoding/json.Unmarshal", [Expr.other]⟩ = MatchRes.fault ∧
    MatchRes.fault ≠ MatchRes.noMatch := by decide

/-- C8 amended: the matcher returns "no match" exactly for callees outside
the rule table (including calls with no static callee); for a callee in the
table it accesses the configured argument index directly, returning the
key `json` with that argument when present and faulting when the call has
fewer arguments. -/
theorem tagAndExpr_table_behavior (fn : String) (args : List Expr) :
    (tagAndExpr ⟨none, args⟩ = MatchRes.noMatch) ∧
    (fn ∉ jsonNames0 → fn ≠ "encoding/json.Unmarshal" →
      tagAndExpr ⟨some fn, args⟩ = MatchRes.noMatch) ∧
    (∀ e, fn ∈ jsonNames0 → args.get? 0 = some e →
      tagAndExpr ⟨some fn, args⟩ = MatchRes.matched "json" e) ∧
    (∀ e, args.get? 1 = some e →
      tagAndExpr ⟨some "encoding/json.Unmarshal", args⟩ = MatchRes.matched "json" e) ∧
    (fn ∈ jsonNames0 → args.get? 0 = none →
      tagAndExpr ⟨some fn, args⟩ = MatchRes.fault) := by
  refine ⟨rfl, ?_, ?_, ?_, ?_⟩
  · intro h1 h2
    have hcond : ¬(fn = "encoding/json.Marshal" ∨ fn = "encoding/json.MarshalIndent" ∨
        fn = "(*encoding/json.Encoder).Encode" ∨ fn = "(*encoding/json.Decoder).Decode") := by
      intro hc
      exact h1 (by simpa [jsonNames0] using hc)
    show (if _ ∨ _ ∨ _ ∨ _ then argAt args 0
      else if fn = "encoding/json.Unmarshal" then argAt args 1 else MatchRes.noMatch) =
        MatchRes.noMatch
    rw [if_neg hcond, if_neg h2]
  · intro e h1 h2
    rw [tagAndExpr_mem0 fn args h1, argAt, h2]
  · intro e h2
    have hstep : tagAndExpr ⟨some "encoding/json.Unmarshal", args⟩ = argAt args 1 := rfl
    rw [hstep, argAt, h2]
  · intro h1 h2
    rw [tagAndExpr_mem0 fn args h1, argAt, h2]

/-- C8 amended witness: a `json.Marshal` call with one argument matches,
returning the key and that argument. -/
theorem tagAndExpr_table_behavior_witness :
    tagAndExpr ⟨some "encoding/json.Marshal", [Expr.other]⟩ =
      MatchRes.matched "json" Expr.other :=
  (tagAndExpr_table_behavior "encoding/json.Marshal" [Expr.other]).2.2.1
    Expr.other (by decide) rfl

/-- C9 counterexample: the claim says every expression whose static type is
a single-level pointer to a record resolves to the pointed-to record; but
for a pointer to an anonymous record with an expression shape other than an
identifier or composite literal (here: any other expression), resolution
fails. -/
theorem structAndPos_anon_other_shape_none :
    structAndPos [] (Ty.ptr (Ty.strct [Field.mk "X" true "" Ty.basic]))
      Expr.other = none := rfl

/-- C9 amended: the resolver unwraps exactly one pointer level — a pointer
to a named record always resolves to that record at its declaration
position; a pointer to an anonymous record resolves only when the
expression (after unwrapping one unary operation) is an identifier or a
composite literal, at the expression's position; a pointer to a pointer and
a non-record type resolve to no match. -/
theorem structAndPos_unwrap_behavior (env : Env) (e : Expr) (t : Ty)
    (fs : List Field) (n : String) (d : Nat) :
    (lookupEnv env n = some (d, Ty.strct fs) →
      structAndPos env (Ty.ptr (Ty.named n)) e = some (fs, d)) ∧
    (structAndPos env (Ty.ptr (Ty.ptr t)) e = none) ∧
    (structAndPos env Ty.basic e = none) ∧
    (∀ p, structAndPos env (Ty.ptr (Ty.strct fs)) (Expr.ident p) = some (fs, p)) ∧
    (∀ p, structAndPos env (Ty.ptr (Ty.strct fs))
      (Expr.unary (Expr.compositeLit p)) = some (fs, p)) := by
  refine ⟨?_, rfl, rfl, fun p => rfl, fun p => rfl⟩
  intro h
  simp [structAndPos, unwrapPtr, h]

/-- C9 amended witness: a pointer to the named record `T` resolves to `T`'s
fields and declaration position even for an otherwise unsupported
expression shape. -/
theorem structAndPos_unwrap_behavior_witness :
    structAndPos [("T", 40, Ty.strct [Field.mk "Name" true "" Ty.basic])]
      (Ty.ptr (Ty.named "T")) Expr.other =
      some ([Field.mk "Name" true "" Ty.basic], 40) :=
  (structAndPos_unwrap_behavior [("T", 40, Ty.strct [Field.mk "Name" true "" Ty.basic])]
    Expr.other Ty.basic [Field.mk "Name" true "" Ty.basic] "T" 40).1 rfl

/-- C10 counterexample: in `envAnon` the outer record `A`'s only nested
record is anonymous, so per the claim a failing verification must leave the
position unchanged (10); but the named record `C` deeper inside the
anonymous struct is the failing one, and its declaration 30 is written. -/
theorem checkStruct_pos_written_anon_nested :
    checkStructFuel envAnon "json" 5 fsAnonOuter 10 = some (false, 30) ∧
    checkStructFuel envAnon "json" 5 fsAnonOuter 10 ≠ some (false, 10) := by decide

/-- C10 amended: the verifier writes the in-out position only on failing
paths and only with the declaration position of some named record of the
type table: a `true` result leaves the position exactly as on entry, any
result leaves it unchanged or equal to a table entry's declaration
position, and on fields whose types mention no named record at all (a
direct untagged field, or failure only through anonymous nested records)
the position is unchanged even on failure. -/
theorem checkStruct_pos_frame (env : Env) (tag : String) (fuel : Nat)
    (fs : List Field) (pos : Nat) (b : Bool) (p : Nat)
    (h : checkStructFuel env tag fuel fs pos = some (b, p)) :
    (b = true → p = pos) ∧
    (p = pos ∨ ∃ ent ∈ env, ent.2.1 = p) ∧
    (fieldsNoNamed fs = true → p = pos) :=
  ⟨fun hb => checkStructFuel_frame env tag fuel fs pos p (hb ▸ h),
   checkStructFuel_write env tag fuel fs pos b p h,
   fun hn => checkStructFuel_noNamed env tag fuel fs pos b p hn h⟩

/-- C10 amended witness: a compliant one-field record verifies to `true`
from position 3 (by evaluation) and the frame properties hold there. -/
theorem checkStruct_pos_frame_witness :
    (true = true → (3 : Nat) = 3) ∧
    ((3 : Nat) = 3 ∨ ∃ ent ∈ ([] : Env), ent.2.1 = 3) ∧
    (fieldsNoNamed [Field.mk "Name" true "json:\"n\"" Ty.basic] = true → (3 : Nat) = 3) :=
  checkStruct_pos_frame [] "json" 1 [Field.mk "Name" true "json:\"n\"" Ty.basic]
    3 true 3 rfl

end Musttag
